import Mathlib

/-!
# Verification of the surf cookie middleware

A shallow embedding of `src/lib.rs` of the `surf-cookie-middleware` crate,
together with theorems settling the specification's claims about it.

The crate is a thin orchestration layer: it keeps a shared `CookieStore`
behind a readers-writer lock and an optional file handle behind a mutex.
On the outbound path (`set_cookies`) it asks the store for the cookies
matching the request URL, sorts them by descending path length, joins them
as `name=value` pairs with `"; "` and installs the result as the `Cookie`
request header.  On the inbound path (`store_cookies`) it feeds every
`Set-Cookie` header value to the store's `parse` and then rewrites the
persistence file (`save`).  Construction (`from_path` / `from_file` /
`load_from_file`) opens or creates the backing file and decodes its
newline-delimited contents, falling back to an empty jar on decode failure.

Cookie parsing, matching and (de)serialization live in the external
`cookie_store` crate; the spec treats that engine as an external
collaborator and fixes only the contract the middleware relies on, so those
parts are modelled here from the spec's words (each such definition says so
in its doc comment).  Everything else is translated directly from the
source.  The asynchronous effects of the source (file I/O, the transport)
are embedded by explicit state passing: file contents are a `List Char`,
an injected flag stands for the success or failure of the file I/O during
`save`, and the transport is a function from request to optional response.
-/

/-- A cookie as fixed by the spec's data model: identified by
`(domain, path, name)`; carries `value`, an optional `expiry`
(`none` = session cookie) and the `secure` / `http_only` flags. -/
structure Cookie where
  domain : String
  path : String
  name : String
  value : String
  expires : Option Nat
  secure : Bool
  httpOnly : Bool
deriving Repr, DecidableEq

/-- The identifying key of a cookie: the `(domain, path, name)` triple. -/
def Cookie.key (c : Cookie) : String × String × String :=
  (c.domain, c.path, c.name)

/-- The parts of a request URL that cookie matching consults. -/
structure Url where
  host : String
  path : String
  https : Bool
deriving Repr, DecidableEq

/-- Request headers: a list of (name, value) pairs. -/
def Headers := List (String × String)
deriving Repr, DecidableEq

/-- An outgoing request: its URL and mutable headers. -/
structure Request where
  url : Url
  headers : Headers
deriving Repr, DecidableEq

/-- An incoming response, reduced to what the middleware reads from it:
the list of `Set-Cookie` header occurrences (`[]` when the header is
absent). -/
structure Response where
  setCookieValues : List String
deriving Repr, DecidableEq

/-- `insert_header` semantics of surf: installing a header replaces every
prior occurrence of that header name by the single new value. -/
def insertHeader (hs : Headers) (name value : String) : Headers :=
  List.filter (fun p => p.1 != name) hs ++ [(name, value)]

/-- All values a header name carries, in order. -/
def headerValues (hs : Headers) (name : String) : List String :=
  (List.filter (fun p => p.1 == name) hs).map (fun p => p.2)

/-- Modelled from the spec: RFC 6265 path-match as applied by the external
`cookie_store` engine.  A cookie path matches the request path when they
are equal, or the cookie path is a proper prefix and either ends in `/`
or the request path continues with `/`. -/
def pathMatches (cookiePath reqPath : String) : Bool :=
  cookiePath == reqPath ||
    (cookiePath.data.isPrefixOf reqPath.data &&
      (cookiePath.data.getLast? == some '/' ||
        (reqPath.data.drop cookiePath.data.length).head? == some '/'))

/-- Modelled from the spec: the external engine's matching rule for one
cookie against a URL — domain, path, secure and expiry constraints must
all be satisfied (`now` is the clock the engine consults for expiry). -/
def cookieMatches (now : Nat) (c : Cookie) (u : Url) : Bool :=
  c.domain == u.host && pathMatches c.path u.path &&
    (!c.secure || u.https) &&
    (match c.expires with
     | none => true
     | some t => decide (now < t))

/-- Modelled from the spec: the Jar Store's `matches(url)` — every cookie
in the jar whose constraints are satisfied by the URL. -/
def matchesAt (now : Nat) (jar : List Cookie) (u : Url) : List Cookie :=
  List.filter (fun c => cookieMatches now c u) jar

/-- The sort relation of `set_cookies`: the comparator
`|a, b| b.path.len().cmp(&a.path.len())` orders `a` before `b` exactly
when `b`'s path is no longer than `a`'s (descending path length). -/
def pathGe (a b : Cookie) : Prop := b.path.length ≤ a.path.length

instance : DecidableRel pathGe := fun _ _ => Nat.decLe _ _

instance : IsTotal Cookie pathGe := ⟨fun _ _ => Nat.le_total _ _⟩

instance : IsTrans Cookie pathGe := ⟨fun _ _ _ h1 h2 => Nat.le_trans h2 h1⟩

/-- `matches.sort_by(|a, b| b.path.len().cmp(&a.path.len()))`: sort the
matched cookies by descending path length. -/
def sortByPathLen (l : List Cookie) : List Cookie :=
  l.insertionSort pathGe

/-- The `Cookie` header value built by `set_cookies`: each matched cookie
formatted as `name=value`, joined with `"; "`. -/
def cookieHeaderValue (matched : List Cookie) : String :=
  String.intercalate "; "
    ((sortByPathLen matched).map (fun c => c.name ++ "=" ++ c.value))

/-- The header name `COOKIE`. -/
def cookieHeaderName : String := "cookie"

/-- `CookieMiddleware::set_cookies` (src/lib.rs lines 205-219): read the
jar, collect the matches for the request URL, sort by descending path
length, join as `name=value` pairs with `"; "`, and insert the result as
the `Cookie` request header. -/
def set_cookies (now : Nat) (jar : List Cookie) (req : Request) : Request :=
  { req with
    headers :=
      insertHeader req.headers cookieHeaderName
        (cookieHeaderValue (matchesAt now jar req.url)) }

theorem headerValues_insertHeader (hs : Headers) (name value : String) :
    headerValues (insertHeader hs name value) name = [value] := by
  unfold headerValues insertHeader
  rw [List.filter_append]
  have h0 :
      List.filter (fun p => p.1 == name)
        (List.filter (fun p : String × String => p.1 != name) hs) = [] := by
    rw [List.filter_eq_nil_iff]
    intro a ha
    have h1 := List.of_mem_filter ha
    simp only [bne_iff_ne, ne_eq] at h1
    simp [h1]
  rw [h0]
  simp

theorem sortByPathLen_sorted (l : List Cookie) :
    (sortByPathLen l).Sorted pathGe :=
  List.sorted_insertionSort pathGe l

theorem sortByPathLen_perm (l : List Cookie) :
    (sortByPathLen l).Perm l :=
  List.perm_insertionSort pathGe l

/-- The decimal digit characters used by the serialization. -/
def digitChar (d : Nat) : Char :=
  match d with
  | 0 => '0' | 1 => '1' | 2 => '2' | 3 => '3' | 4 => '4'
  | 5 => '5' | 6 => '6' | 7 => '7' | 8 => '8' | _ => '9'

/-- Inverse of `digitChar` on decimal digit characters. -/
def digitVal (c : Char) : Option Nat :=
  if c = '0' then some 0 else if c = '1' then some 1
  else if c = '2' then some 2 else if c = '3' then some 3
  else if c = '4' then some 4 else if c = '5' then some 5
  else if c = '6' then some 6 else if c = '7' then some 7
  else if c = '8' then some 8 else if c = '9' then some 9 else none

/-- Fuel-indexed big-endian decimal rendering of a natural number. -/
def natCharsAux : Nat → Nat → List Char
  | 0, _ => []
  | fuel + 1, n =>
    if n < 10 then [digitChar n]
    else natCharsAux fuel (n / 10) ++ [digitChar (n % 10)]

/-- Big-endian decimal rendering of a natural number. -/
def natChars (n : Nat) : List Char := natCharsAux (n + 1) n

/-- Little-endian decimal decoding (the input is the reversed digit
string). -/
def decodeLE : List Char → Option Nat
  | [] => some 0
  | c :: rest =>
    match digitVal c, decodeLE rest with
    | some d, some m => some (d + 10 * m)
    | _, _ => none

/-- Decode a nonempty big-endian decimal digit string. -/
def charsNat (l : List Char) : Option Nat :=
  match l with
  | [] => none
  | _ => decodeLE l.reverse

/-- One-character encoding of a boolean flag. -/
def boolChars (b : Bool) : List Char := if b then ['1'] else ['0']

/-- Inverse of `boolChars`. -/
def charsBool (l : List Char) : Option Bool :=
  if l = ['1'] then some true else if l = ['0'] then some false else none

/-- Split a character list at every occurrence of `sep`; always returns at
least one (possibly empty) segment. -/
def splitOnChar (sep : Char) : List Char → List (List Char)
  | [] => [[]]
  | c :: rest =>
    match splitOnChar sep rest with
    | [] => if c = sep then [[], []] else [[c]]
    | f :: r => if c = sep then [] :: f :: r else (c :: f) :: r

/-- Join segments with a single `sep` between consecutive segments. -/
def joinSep (sep : Char) : List (List Char) → List Char
  | [] => []
  | [l] => l
  | l :: ls => l ++ sep :: joinSep sep ls

/-- `true` when no character of `l` is `sep`. -/
def sepFree (sep : Char) (l : List Char) : Bool :=
  l.all (fun c => c != sep)

/-- A cookie field is storable when it contains neither the field
separator (tab) nor the record separator (newline). -/
def fieldOk (s : String) : Bool :=
  sepFree '\t' s.data && sepFree '\n' s.data

/-- A cookie is storable when all four string fields are. -/
def cookieOk (c : Cookie) : Bool :=
  fieldOk c.domain && fieldOk c.path && fieldOk c.name && fieldOk c.value

/-- Modelled from the spec: one serialized cookie record (one line of the
persisted file) — an injective rendering of all cookie fields, with the
expiry of a persistent cookie in the last field. -/
def encodeLine (c : Cookie) : List Char :=
  joinSep '\t'
    [c.domain.data, c.path.data, c.name.data, c.value.data,
      boolChars c.secure, boolChars c.httpOnly,
      natChars (c.expires.getD 0)]

/-- Modelled from the spec: decoding of one line of the persisted file;
fails on anything `encodeLine` cannot have produced. -/
def decodeLine (l : List Char) : Option Cookie :=
  match splitOnChar '\t' l with
  | [d, p, n, v, sec, ho, e] =>
    match charsBool sec, charsBool ho, charsNat e with
    | some sb, some hb, some t =>
      some ⟨String.mk d, String.mk p, String.mk n, String.mk v, some t, sb, hb⟩
    | _, _, _ => none
  | _ => none

/-- Decode every line, failing if any single line fails. -/
def decodeLines : List (List Char) → Option (List Cookie)
  | [] => some []
  | l :: ls =>
    match decodeLine l, decodeLines ls with
    | some c, some cs => some (c :: cs)
    | _, _ => none

/-- Modelled from the spec: the non-session, non-expired cookies of the
jar — exactly the ones `cookie_store`'s `save_json` serializes. -/
def persistentAt (now : Nat) (jar : List Cookie) : List Cookie :=
  List.filter
    (fun c =>
      match c.expires with
      | none => false
      | some t => decide (now < t)) jar

/-- Modelled from the spec: `CookieStore::save_json` — every non-session,
non-expired cookie serialized to one line, each line terminated by a
newline. -/
def save_json (now : Nat) (jar : List Cookie) : List Char :=
  ((persistentAt now jar).map (fun c => encodeLine c ++ ['\n'])).flatten

/-- Modelled from the spec: `CookieStore::load_json` — split the file
contents into newline-terminated records, decode each record, and fail if
any record is malformed. -/
def load_json (contents : List Char) : Option (List Cookie) :=
  decodeLines
    (if (splitOnChar '\n' contents).getLast? = some [] then
      (splitOnChar '\n' contents).dropLast
    else splitOnChar '\n' contents)

/-- Modelled from the spec: insertion into the jar keyed by
`(domain, path, name)` — inserting with an existing key overwrites the
old cookie (replacement semantics of the external engine's store). -/
def jarInsert (jar : List Cookie) (c : Cookie) : List Cookie :=
  c :: List.filter (fun x => x.key != c.key) jar

/-- Modelled from the spec: a minimal instance of the external engine's
`parse(raw_set_cookie_value, request_url)` contract — it validates the
raw value (here: it must contain a `name=value` split), scopes the new
cookie to the URL that produced it, and inserts it with replacement
semantics; a malformed value yields no jar change and an error. -/
def splitFirst (sep : Char) : List Char → Option (List Char × List Char)
  | [] => none
  | c :: rest =>
    if c = sep then some ([], rest)
    else (splitFirst sep rest).map (fun pr => (c :: pr.1, pr.2))

/-- Modelled from the spec: see `splitFirst` — the engine instance used to
settle the claims that quantify over concrete `Set-Cookie` values. -/
def modelParse (raw : String) (u : Url) (jar : List Cookie) :
    Option (List Cookie) :=
  (splitFirst '=' raw.data).map
    (fun pr =>
      jarInsert jar
        ⟨u.host, "/", String.mk pr.1, String.mk pr.2, none, false, false⟩)

/-- The `for cookie in set_cookies` loop of `store_cookies` (src/lib.rs
lines 224-229): each `Set-Cookie` value is handed to `parse`
independently; a success replaces the jar, a failure is only logged and
the loop continues with the jar unchanged. -/
def processSetCookies
    (parse : String → Url → List Cookie → Option (List Cookie))
    (u : Url) (values : List String) (jar : List Cookie) : List Cookie :=
  values.foldl (fun j v => (parse v u j).getD j) jar

/-- An I/O failure during `save`, as surfaced by the `?` operators on the
file operations in src/lib.rs lines 197-200. -/
inductive SaveError
  | ioError
deriving Repr, DecidableEq

/-- Writing the serialized jar through the cursor over `vec![0]`
(src/lib.rs lines 187-194): the cursor starts at position 0, so the
written bytes overwrite the initial byte and extend the buffer; a leftover
of the one-byte initialization survives only when fewer bytes are written
than the buffer held. -/
def overwriteAt0 (init data : List Char) : List Char :=
  data ++ init.drop data.length

/-- The buffer `save` flushes to the file: the serialization of the jar
written over the one-byte buffer `vec![0]`. -/
def saveBuffer (now : Nat) (jar : List Cookie) : List Char :=
  overwriteAt0 [Char.ofNat 0] (save_json now jar)

/-- The file contents after the I/O sequence of `save` (src/lib.rs lines
197-199): seek to 0, `write_all` the buffer (overwriting the prefix of
the prior contents and extending past their end), then `set_len` to the
buffer's length. -/
def fileAfterSave (prior : List Char) (now : Nat) (jar : List Cookie) :
    List Char :=
  let buf := saveBuffer now jar
  (buf ++ prior.drop buf.length).take buf.length

/-- The shared state a middleware instance owns: the jar behind the
readers-writer lock, and `some` file contents when persistence is
configured. -/
structure MWState where
  jar : List Cookie
  file : Option (List Char)
deriving Repr, DecidableEq

/-- `CookieMiddleware::save` (src/lib.rs lines 185-203): a no-op without a
configured file; otherwise serialize the jar and rewrite the file,
surfacing an I/O error (`ioFail` injects the outcome of the file
operations).  On success the file holds exactly the flushed buffer. -/
def save (ioFail : Bool) (now : Nat) (st : MWState) :
    MWState × Option SaveError :=
  match st.file with
  | none => (st, none)
  | some prior =>
    if ioFail then (st, some SaveError.ioError)
    else ({ st with file := some (fileAfterSave prior now st.jar) }, none)

/-- `CookieMiddleware::store_cookies` (src/lib.rs lines 221-235): feed
every `Set-Cookie` value of the response to `parse` under the write lock,
then call `save` unconditionally.  The jar mutation is shared state: it
survives even when `save` fails. -/
def store_cookies
    (parse : String → Url → List Cookie → Option (List Cookie))
    (ioFail : Bool) (now : Nat) (request_url : Url) (res : Response)
    (st : MWState) : MWState × Option SaveError :=
  save ioFail now
    { st with jar := processSetCookies parse request_url res.setCookieValues st.jar }

/-- Outcome of `Middleware::handle` as seen by its caller. -/
inductive HandleError
  | transport
  | save
deriving Repr, DecidableEq

/-- `Middleware::handle` (src/lib.rs lines 68-74): capture the URL, attach
the matching cookies, run the rest of the chain (`transport`; `none`
models a transport error short-circuited by `?`), then run
`store_cookies`; its error is propagated by `?`, in which case the
already-received response is dropped and the caller gets the error. -/
def handle
    (parse : String → Url → List Cookie → Option (List Cookie))
    (ioFail : Bool) (now : Nat)
    (transport : Request → Option Response)
    (st : MWState) (req : Request) :
    MWState × Except HandleError Response :=
  match transport (set_cookies now st.jar req) with
  | none => (st, Except.error HandleError.transport)
  | some res =>
    match store_cookies parse ioFail now req.url res st with
    | (st', none) => (st', Except.ok res)
    | (st', some _) => (st', Except.error HandleError.save)

/-- An error opening or creating the backing file. -/
inductive OpenError
  | ioError
deriving Repr, DecidableEq

/-- `CookieMiddleware::load_from_file` (src/lib.rs lines 147-151): read
the whole file and decode it, any failure collapsing to `none`. -/
def load_from_file (contents : List Char) : Option (List Cookie) :=
  load_json contents

/-- `CookieMiddleware::from_file` (src/lib.rs lines 176-183): decode the
file contents into the starting jar, falling back to an empty jar when
decoding fails; construction itself never fails. -/
def from_file (contents : List Char) : Except OpenError MWState :=
  Except.ok { jar := (load_from_file contents).getD [], file := some contents }

/-- `CookieMiddleware::from_path` (src/lib.rs lines 135-145): open the
file with `create(true)` (an absent file becomes an empty one), surface
only the open error, and defer to `from_file`. -/
def from_path (openResult : Except OpenError (List Char)) :
    Except OpenError MWState :=
  match openResult with
  | Except.error e => Except.error e
  | Except.ok contents => from_file contents

theorem sepFree_iff (sep : Char) (l : List Char) :
    sepFree sep l = true ↔ ∀ c ∈ l, c ≠ sep := by
  simp [sepFree, List.all_eq_true]

theorem digitVal_digitChar (d : Nat) (h : d < 10) :
    digitVal (digitChar d) = some d := by
  interval_cases d <;> rfl

theorem digitChar_ne (d : Nat) :
    digitChar d ≠ '\t' ∧ digitChar d ≠ '\n' := by
  unfold digitChar
  split <;> exact ⟨by decide, by decide⟩

theorem natCharsAux_digits :
    ∀ fuel n c, c ∈ natCharsAux fuel n → ∃ d, c = digitChar d := by
  intro fuel
  induction fuel with
  | zero => intro n c h; simp [natCharsAux] at h
  | succ fuel ih =>
    intro n c h
    unfold natCharsAux at h
    by_cases h10 : n < 10
    · rw [if_pos h10] at h
      simp only [List.mem_singleton] at h
      exact ⟨n, h⟩
    · rw [if_neg h10] at h
      rcases List.mem_append.mp h with h1 | h2
      · exact ih _ _ h1
      · simp only [List.mem_singleton] at h2
        exact ⟨n % 10, h2⟩

theorem natCharsAux_ne_nil (fuel n : Nat) (h : n < fuel) :
    natCharsAux fuel n ≠ [] := by
  cases fuel with
  | zero => exact absurd h (Nat.not_lt_zero n)
  | succ fuel =>
    unfold natCharsAux
    by_cases h10 : n < 10
    · rw [if_pos h10]; simp
    · rw [if_neg h10]; simp

theorem decodeLE_natCharsAux :
    ∀ fuel n, n < fuel → decodeLE (natCharsAux fuel n).reverse = some n := by
  intro fuel
  induction fuel with
  | zero => intro n h; exact absurd h (Nat.not_lt_zero n)
  | succ fuel ih =>
    intro n h
    unfold natCharsAux
    by_cases h10 : n < 10
    · rw [if_pos h10]
      simp only [List.reverse_singleton]
      simp [decodeLE, digitVal_digitChar n h10]
    · rw [if_neg h10]
      rw [List.reverse_append, List.reverse_singleton]
      have hdivlt : n / 10 < n := Nat.div_lt_self (by omega) (by omega)
      have hdiv : n / 10 < fuel := by omega
      show decodeLE (digitChar (n % 10) :: (natCharsAux fuel (n / 10)).reverse) =
        some n
      simp only [decodeLE]
      rw [digitVal_digitChar (n % 10) (Nat.mod_lt n (by omega)), ih (n / 10) hdiv]
      simp only [Option.some.injEq]
      exact Nat.mod_add_div n 10

theorem charsNat_natChars (n : Nat) : charsNat (natChars n) = some n := by
  have hdec := decodeLE_natCharsAux (n + 1) n (Nat.lt_succ_self n)
  have hne := natCharsAux_ne_nil (n + 1) n (Nat.lt_succ_self n)
  unfold natChars
  cases h : natCharsAux (n + 1) n with
  | nil => exact absurd h hne
  | cons a l =>
    rw [h] at hdec
    simpa [charsNat] using hdec

theorem natChars_sepFree (sep : Char) (hsep : sep = '\t' ∨ sep = '\n') (n : Nat) :
    sepFree sep (natChars n) = true := by
  rw [sepFree_iff]
  intro c hc
  obtain ⟨d, rfl⟩ := natCharsAux_digits (n + 1) n c hc
  have hd := digitChar_ne d
  rcases hsep with h | h <;> rw [h]
  · exact hd.1
  · exact hd.2

theorem charsBool_boolChars (b : Bool) : charsBool (boolChars b) = some b := by
  cases b <;> rfl

theorem boolChars_sepFree (sep : Char) (hsep : sep = '\t' ∨ sep = '\n') (b : Bool) :
    sepFree sep (boolChars b) = true := by
  rcases hsep with h | h <;> rw [h] <;> cases b <;> decide

theorem splitOnChar_ne_nil (sep : Char) (l : List Char) :
    splitOnChar sep l ≠ [] := by
  induction l with
  | nil => simp [splitOnChar]
  | cons c rest ih =>
    unfold splitOnChar
    cases h : splitOnChar sep rest with
    | nil => by_cases hc : c = sep <;> simp [hc]
    | cons f r => by_cases hc : c = sep <;> simp [hc]

theorem splitOnChar_sepFree (sep : Char) (l : List Char)
    (h : sepFree sep l = true) : splitOnChar sep l = [l] := by
  induction l with
  | nil => rfl
  | cons c rest ih =>
    rw [sepFree_iff] at h
    have hc : c ≠ sep := h c (List.mem_cons_self c rest)
    have hrest : sepFree sep rest = true := by
      rw [sepFree_iff]
      intro x hx
      exact h x (List.mem_cons_of_mem c hx)
    unfold splitOnChar
    rw [ih hrest]
    simp [hc]

theorem splitOnChar_cons (sep c : Char) (rest : List Char) :
    splitOnChar sep (c :: rest) =
      match splitOnChar sep rest with
      | [] => if c = sep then [[], []] else [[c]]
      | f :: r => if c = sep then [] :: f :: r else (c :: f) :: r := rfl

theorem splitOnChar_append (sep : Char) (a b : List Char)
    (h : sepFree sep a = true) :
    splitOnChar sep (a ++ sep :: b) = a :: splitOnChar sep b := by
  induction a with
  | nil =>
    rw [List.nil_append, splitOnChar_cons]
    cases hb : splitOnChar sep b with
    | nil => exact absurd hb (splitOnChar_ne_nil sep b)
    | cons f r => simp
  | cons c rest ih =>
    rw [sepFree_iff] at h
    have hc : c ≠ sep := h c (List.mem_cons_self c rest)
    have hrest : sepFree sep rest = true := by
      rw [sepFree_iff]
      intro x hx
      exact h x (List.mem_cons_of_mem c hx)
    rw [List.cons_append, splitOnChar_cons, ih hrest]
    simp [hc]

theorem splitOnChar_joinSep (sep : Char) :
    ∀ ls : List (List Char), ls ≠ [] → (∀ l ∈ ls, sepFree sep l = true) →
      splitOnChar sep (joinSep sep ls) = ls := by
  intro ls
  induction ls with
  | nil => intro h; exact absurd rfl h
  | cons l rest ih =>
    intro _ hall
    cases rest with
    | nil =>
      exact splitOnChar_sepFree sep l (hall l (List.mem_cons_self l []))
    | cons l2 rest2 =>
      have hj : joinSep sep (l :: l2 :: rest2) =
          l ++ sep :: joinSep sep (l2 :: rest2) := rfl
      rw [hj, splitOnChar_append sep l _ (hall l (List.mem_cons_self l _)),
        ih (by simp) (fun x hx => hall x (List.mem_cons_of_mem l hx))]

theorem sepFree_joinSep (c sep : Char) (hcs : sep ≠ c) :
    ∀ ls : List (List Char), (∀ l ∈ ls, sepFree c l = true) →
      sepFree c (joinSep sep ls) = true := by
  intro ls
  induction ls with
  | nil => intro _; rfl
  | cons l rest ih =>
    intro hall
    cases rest with
    | nil => exact hall l (List.mem_cons_self l [])
    | cons l2 rest2 =>
      rw [sepFree_iff]
      intro x hx
      have hj2 : joinSep sep (l :: l2 :: rest2) =
          l ++ sep :: joinSep sep (l2 :: rest2) := rfl
      rw [hj2] at hx
      rcases List.mem_append.mp hx with h1 | h2
      · exact (sepFree_iff c l).mp (hall l (List.mem_cons_self l _)) x h1
      · rcases List.mem_cons.mp h2 with h3 | h4
        · rw [h3]; exact hcs
        · exact (sepFree_iff c _).mp
            (ih (fun y hy => hall y (List.mem_cons_of_mem l hy))) x h4

theorem fieldOk_tab {s : String} (h : fieldOk s = true) :
    sepFree '\t' s.data = true := by
  unfold fieldOk at h
  exact (Bool.and_eq_true _ _).mp h |>.1

theorem fieldOk_nl {s : String} (h : fieldOk s = true) :
    sepFree '\n' s.data = true := by
  unfold fieldOk at h
  exact (Bool.and_eq_true _ _).mp h |>.2

theorem encodeLine_fields_tabFree (c : Cookie) (hok : cookieOk c = true) :
    ∀ l ∈ [c.domain.data, c.path.data, c.name.data, c.value.data,
      boolChars c.secure, boolChars c.httpOnly,
      natChars (c.expires.getD 0)], sepFree '\t' l = true := by
  unfold cookieOk at hok
  simp only [Bool.and_eq_true] at hok
  intro l hl
  simp only [List.mem_cons, List.mem_singleton] at hl
  rcases hl with rfl | rfl | rfl | rfl | rfl | rfl | rfl | h
  · exact fieldOk_tab hok.1.1.1
  · exact fieldOk_tab hok.1.1.2
  · exact fieldOk_tab hok.1.2
  · exact fieldOk_tab hok.2
  · exact boolChars_sepFree '\t' (Or.inl rfl) c.secure
  · exact boolChars_sepFree '\t' (Or.inl rfl) c.httpOnly
  · exact natChars_sepFree '\t' (Or.inl rfl) _
  · exact absurd h (List.not_mem_nil l)

theorem encodeLine_nlFree (c : Cookie) (hok : cookieOk c = true) :
    sepFree '\n' (encodeLine c) = true := by
  unfold cookieOk at hok
  simp only [Bool.and_eq_true] at hok
  apply sepFree_joinSep '\n' '\t' (by decide)
  intro l hl
  simp only [List.mem_cons, List.mem_singleton] at hl
  rcases hl with rfl | rfl | rfl | rfl | rfl | rfl | rfl | h
  · exact fieldOk_nl hok.1.1.1
  · exact fieldOk_nl hok.1.1.2
  · exact fieldOk_nl hok.1.2
  · exact fieldOk_nl hok.2
  · exact boolChars_sepFree '\n' (Or.inr rfl) c.secure
  · exact boolChars_sepFree '\n' (Or.inr rfl) c.httpOnly
  · exact natChars_sepFree '\n' (Or.inr rfl) _
  · exact absurd h (List.not_mem_nil l)

theorem splitOnChar_flatten_lines (sep : Char) :
    ∀ ls : List (List Char), (∀ l ∈ ls, sepFree sep l = true) →
      splitOnChar sep ((ls.map (fun l => l ++ [sep])).flatten) = ls ++ [[]] := by
  intro ls
  induction ls with
  | nil => intro _; rfl
  | cons l rest ih =>
    intro hall
    rw [List.map_cons, List.flatten_cons]
    have hassoc : (l ++ [sep]) ++ ((rest.map (fun x => x ++ [sep])).flatten) =
        l ++ sep :: ((rest.map (fun x => x ++ [sep])).flatten) := by
      simp
    rw [hassoc, splitOnChar_append sep l _ (hall l (List.mem_cons_self l rest)),
      ih (fun x hx => hall x (List.mem_cons_of_mem l hx))]
    rfl

theorem decodeLine_encodeLine (c : Cookie) (t : Nat)
    (hok : cookieOk c = true) (ht : c.expires = some t) :
    decodeLine (encodeLine c) = some c := by
  obtain ⟨dom, pa, na, va, ex, se, ho⟩ := c
  simp only at ht
  subst ht
  unfold decodeLine encodeLine
  rw [splitOnChar_joinSep '\t' _ (by simp)
    (encodeLine_fields_tabFree ⟨dom, pa, na, va, some t, se, ho⟩ hok)]
  simp [charsBool_boolChars, charsNat_natChars]

theorem decodeLines_encode (l : List Cookie)
    (h : ∀ c ∈ l, cookieOk c = true ∧ ∃ t, c.expires = some t) :
    decodeLines (l.map encodeLine) = some l := by
  induction l with
  | nil => rfl
  | cons c rest ih =>
    have hc := h c (List.mem_cons_self c rest)
    obtain ⟨hok, t, ht⟩ := hc
    rw [List.map_cons]
    unfold decodeLines
    rw [decodeLine_encodeLine c t hok ht,
      ih (fun x hx => h x (List.mem_cons_of_mem c hx))]

theorem mem_persistentAt (now : Nat) (jar : List Cookie) (c : Cookie) :
    c ∈ persistentAt now jar ↔
      c ∈ jar ∧ ∃ t, c.expires = some t ∧ now < t := by
  unfold persistentAt
  rw [List.mem_filter]
  cases hce : c.expires with
  | none => simp [hce]
  | some t => simp [hce]

theorem save_json_eq_nil_iff (now : Nat) (jar : List Cookie) :
    save_json now jar = [] ↔ persistentAt now jar = [] := by
  cases h : persistentAt now jar with
  | nil => simp [save_json, h]
  | cons c rest => simp [save_json, h]

theorem load_json_save_json (now : Nat) (jar : List Cookie)
    (h : ∀ c ∈ jar, cookieOk c = true) :
    load_json (save_json now jar) = some (persistentAt now jar) := by
  have hsub : ∀ c ∈ persistentAt now jar, cookieOk c = true := by
    intro c hc
    exact h c ((mem_persistentAt now jar c).mp hc).1
  have hmap : (persistentAt now jar).map (fun c => encodeLine c ++ ['\n']) =
      ((persistentAt now jar).map encodeLine).map (fun l => l ++ ['\n']) := by
    rw [List.map_map]
    rfl
  unfold load_json save_json
  rw [hmap]
  rw [splitOnChar_flatten_lines '\n' _
    (by
      intro l hl
      obtain ⟨c, hc, rfl⟩ := List.mem_map.mp hl
      exact encodeLine_nlFree c (hsub c hc))]
  rw [List.getLast?_concat]
  rw [if_pos rfl]
  rw [List.dropLast_concat]
  apply decodeLines_encode
  intro c hc
  refine ⟨hsub c hc, ?_⟩
  obtain ⟨-, t, ht, -⟩ := (mem_persistentAt now jar c).mp hc
  exact ⟨t, ht⟩

theorem saveBuffer_of_ne_nil (now : Nat) (jar : List Cookie)
    (h : save_json now jar ≠ []) :
    saveBuffer now jar = save_json now jar := by
  unfold saveBuffer overwriteAt0
  cases hs : save_json now jar with
  | nil => exact absurd hs h
  | cons a l => simp

theorem saveBuffer_of_nil (now : Nat) (jar : List Cookie)
    (h : save_json now jar = []) :
    saveBuffer now jar = [Char.ofNat 0] := by
  unfold saveBuffer overwriteAt0
  rw [h]
  rfl

theorem fileAfterSave_eq (prior : List Char) (now : Nat) (jar : List Cookie) :
    fileAfterSave prior now jar = saveBuffer now jar := by
  unfold fileAfterSave
  exact List.take_left _ _

/-- The jar invariant: at most one cookie per `(domain, path, name)`
triple. -/
def distinctKeys (jar : List Cookie) : Prop :=
  jar.Pairwise (fun a b => a.key ≠ b.key)

theorem filter_key_of_filter_ne (k : String × String × String)
    (l : List Cookie) :
    List.filter (fun x => x.key == k)
      (List.filter (fun x => x.key != k) l) = [] := by
  rw [List.filter_eq_nil_iff]
  intro a ha
  have h1 := List.of_mem_filter ha
  simp only [bne_iff_ne, ne_eq] at h1
  simp [h1]

/-- C1: for every request, the pre-send step sets the `Cookie` request
header — replacing any prior value, leaving a single occurrence — to
exactly the cookies of the jar matching the request URL, sorted by
descending path length and joined as `name=value` pairs with `"; "`;
concretely, with same-named cookies on paths `/` and `/foo` under one
domain, a request to `/foo/bar` lists the `/foo`-scoped cookie first. -/
theorem set_cookies_header_contract :
    (∀ now jar req,
      headerValues (set_cookies now jar req).headers cookieHeaderName =
        [cookieHeaderValue (matchesAt now jar req.url)]) ∧
    (∀ l : List Cookie,
      (sortByPathLen l).Sorted pathGe ∧ (sortByPathLen l).Perm l) ∧
    headerValues
      (set_cookies 0
        [⟨"example.com", "/", "n", "root", none, false, false⟩,
          ⟨"example.com", "/foo", "n", "foo", none, false, false⟩]
        ⟨⟨"example.com", "/foo/bar", false⟩, [("cookie", "stale")]⟩).headers
      cookieHeaderName = ["n=foo; n=root"] := by
  refine ⟨?_, ?_, by decide⟩
  · intro now jar req
    exact headerValues_insertHeader req.headers cookieHeaderName _
  · intro l
    exact ⟨sortByPathLen_sorted l, sortByPathLen_perm l⟩

/-- C10: when no cookie in the jar matches the request URL, the pre-send
step still installs the `Cookie` header, with the empty string as its
value (the join of the empty match list), rather than leaving the
request's headers unchanged. -/
theorem set_cookies_empty_match (now : Nat) (jar : List Cookie)
    (req : Request) (h : matchesAt now jar req.url = []) :
    headerValues (set_cookies now jar req).headers cookieHeaderName =
      [""] := by
  unfold set_cookies
  rw [h]
  have hempty : cookieHeaderValue [] = "" := by decide
  rw [hempty]
  exact headerValues_insertHeader req.headers cookieHeaderName ""

/-- Witness for `set_cookies_empty_match`: an empty jar matches nothing,
and a request carrying a stale `Cookie` header gets it replaced by the
empty value. -/
theorem set_cookies_empty_match_witness :
    matchesAt 0 []
      (⟨⟨"example.com", "/", false⟩, [("cookie", "stale")]⟩ : Request).url
        = [] ∧
    headerValues
      (set_cookies 0 []
        ⟨⟨"example.com", "/", false⟩, [("cookie", "stale")]⟩).headers
      cookieHeaderName = [""] :=
  ⟨by decide,
    set_cookies_empty_match 0 []
      ⟨⟨"example.com", "/", false⟩, [("cookie", "stale")]⟩ (by decide)⟩

/-- C4: each `Set-Cookie` value of a response is handed to `parse`
independently: a failing value leaves the jar as it was and the loop
continues with the remaining values, so all valid values are stored and
only malformed ones are rejected; the exchange itself is unaffected
because the loop never produces an error (only `save` can). -/
theorem store_cookies_independent_failures :
    (∀ (parse : String → Url → List Cookie → Option (List Cookie))
      (u : Url) (jar : List Cookie) (vs1 : List String) (bad : String)
      (vs2 : List String),
      parse bad u (processSetCookies parse u vs1 jar) = none →
      processSetCookies parse u (vs1 ++ bad :: vs2) jar =
        processSetCookies parse u vs2 (processSetCookies parse u vs1 jar)) ∧
    (∀ parse now url res st,
      (store_cookies parse false now url res st).2 = none) ∧
    processSetCookies modelParse ⟨"h", "/", false⟩ ["a=1", "nope", "b=2"]
        [] =
      [⟨"h", "/", "b", "2", none, false, false⟩,
        ⟨"h", "/", "a", "1", none, false, false⟩] := by
  refine ⟨?_, ?_, by decide⟩
  · intro parse u jar vs1 bad vs2 h
    unfold processSetCookies
    rw [List.foldl_append, List.foldl_cons]
    unfold processSetCookies at h
    rw [h]
    rfl
  · intro parse now url res st
    obtain ⟨jar, file⟩ := st
    cases file <;> simp [store_cookies, save]

/-- Witness for `store_cookies_independent_failures`: the malformed value
`"nope"` fails to parse against the intermediate jar, and the two valid
values around it are both stored. -/
theorem store_cookies_independent_failures_witness :
    modelParse "nope" ⟨"h", "/", false⟩
        (processSetCookies modelParse ⟨"h", "/", false⟩ ["a=1"] []) =
      none ∧
    processSetCookies modelParse ⟨"h", "/", false⟩
        (["a=1"] ++ "nope" :: ["b=2"]) [] =
      processSetCookies modelParse ⟨"h", "/", false⟩ ["b=2"]
        (processSetCookies modelParse ⟨"h", "/", false⟩ ["a=1"] []) :=
  ⟨by decide,
    store_cookies_independent_failures.1 modelParse ⟨"h", "/", false⟩ []
      ["a=1"] "nope" ["b=2"] (by decide)⟩

/-- C8: the jar keeps at most one cookie per `(domain, path, name)`
triple — insertion preserves the invariant and an insert with an existing
key overwrites it, so after parsing two `Set-Cookie` values for the same
key exactly one cookie remains, carrying the latest value. -/
theorem jar_key_uniqueness :
    (∀ jar c, distinctKeys jar → distinctKeys (jarInsert jar c)) ∧
    (∀ (jar : List Cookie) (c1 c2 : Cookie), c1.key = c2.key →
      List.filter (fun x => x.key == c2.key)
        (jarInsert (jarInsert jar c1) c2) = [c2]) ∧
    processSetCookies modelParse ⟨"h", "/", false⟩ ["n=v1", "n=v2"] [] =
      [⟨"h", "/", "n", "v2", none, false, false⟩] := by
  refine ⟨?_, ?_, by decide⟩
  · intro jar c h
    unfold distinctKeys jarInsert
    refine List.Pairwise.cons ?_ ?_
    · intro b hb
      have h1 := List.of_mem_filter hb
      simp only [bne_iff_ne, ne_eq] at h1
      exact fun hkey => h1 hkey.symm
    · exact List.Pairwise.sublist (List.filter_sublist jar) h
  · intro jar c1 c2 _
    show List.filter (fun x => x.key == c2.key)
      (c2 :: List.filter (fun x => x.key != c2.key) (jarInsert jar c1)) =
        [c2]
    rw [List.filter_cons_of_pos (by simp)]
    rw [filter_key_of_filter_ne]

/-- Witness for `jar_key_uniqueness`: two same-key inserts leave exactly
the second cookie under that key. -/
theorem jar_key_uniqueness_witness :
    (⟨"h", "/", "n", "v1", none, false, false⟩ : Cookie).key =
      (⟨"h", "/", "n", "v2", none, false, false⟩ : Cookie).key ∧
    List.filter
      (fun x => x.key ==
        (⟨"h", "/", "n", "v2", none, false, false⟩ : Cookie).key)
      (jarInsert (jarInsert [] ⟨"h", "/", "n", "v1", none, false, false⟩)
        ⟨"h", "/", "n", "v2", none, false, false⟩) =
      [⟨"h", "/", "n", "v2", none, false, false⟩] :=
  ⟨by decide,
    jar_key_uniqueness.2.1 [] ⟨"h", "/", "n", "v1", none, false, false⟩
      ⟨"h", "/", "n", "v2", none, false, false⟩ (by decide)⟩

/-- C5: construction from a file or path succeeds apart from
open/creation errors — `from_file` itself never fails, and when the file
contents cannot be decoded the middleware starts from an empty jar
instead of erroring; `from_path` only propagates the open error. -/
theorem construction_best_effort :
    (∀ contents, ∃ st, from_file contents = Except.ok st) ∧
    (∀ contents, load_json contents = none →
      from_file contents = Except.ok ⟨[], some contents⟩) ∧
    (∀ e, from_path (Except.error e) = Except.error e) ∧
    (∀ contents, from_path (Except.ok contents) = from_file contents) := by
  refine ⟨fun contents => ⟨_, rfl⟩, ?_, fun e => rfl, fun contents => rfl⟩
  intro contents h
  unfold from_file load_from_file
  rw [h]
  rfl

/-- Witness for `construction_best_effort`: a file holding one NUL byte
does not decode, yet construction succeeds with an empty jar. -/
theorem construction_best_effort_witness :
    load_json [Char.ofNat 0] = none ∧
    from_file [Char.ofNat 0] =
      Except.ok ⟨[], some [Char.ofNat 0]⟩ :=
  ⟨by decide, construction_best_effort.2.1 [Char.ofNat 0] (by decide)⟩

/-- C6: with persistence configured, the post-receive step rewrites the
file on every response — also when the response carries zero `Set-Cookie`
values, in which case the jar is unchanged and the file is still replaced
by the jar's serialization. -/
theorem save_after_every_response :
    (∀ (parse : String → Url → List Cookie → Option (List Cookie))
      (now : Nat) (jar : List Cookie) (prior : List Char) (url : Url)
      (res : Response),
      (store_cookies parse false now url res ⟨jar, some prior⟩).1.file =
        some (saveBuffer now
          (processSetCookies parse url res.setCookieValues jar))) ∧
    (∀ (parse : String → Url → List Cookie → Option (List Cookie))
      (now : Nat) (jar : List Cookie) (prior : List Char) (url : Url)
      (res : Response), res.setCookieValues = [] →
      store_cookies parse false now url res ⟨jar, some prior⟩ =
        (⟨jar, some (saveBuffer now jar)⟩, none)) := by
  constructor
  · intro parse now jar prior url res
    unfold store_cookies save
    simp [fileAfterSave_eq]
  · intro parse now jar prior url res h
    unfold store_cookies save
    rw [h]
    simp [processSetCookies, fileAfterSave_eq]

/-- Witness for `save_after_every_response`: a response with no
`Set-Cookie` header still triggers a full file rewrite. -/
theorem save_after_every_response_witness :
    (⟨[]⟩ : Response).setCookieValues = [] ∧
    store_cookies modelParse false 0 ⟨"h", "/", false⟩ ⟨[]⟩
        ⟨[], some ("old".data)⟩ =
      (⟨[], some (saveBuffer 0 [])⟩, none) :=
  ⟨rfl,
    save_after_every_response.2 modelParse 0 [] ("old".data)
      ⟨"h", "/", false⟩ ⟨[]⟩ rfl⟩

/-- C2 counterexample: when `save` fails, `handle` returns the error and
not the response — the response the transport already produced is
dropped, so it is not delivered to the caller of the interceptor,
contradicting the claim that it has been. -/
theorem save_error_response_not_delivered :
    (handle modelParse true 0 (fun _ => some ⟨["sid=1"]⟩)
        ⟨[], some []⟩ ⟨⟨"h", "/", false⟩, []⟩).2 =
      Except.error HandleError.save ∧
    (handle modelParse true 0 (fun _ => some ⟨["sid=1"]⟩)
        ⟨[], some []⟩ ⟨⟨"h", "/", false⟩, []⟩).2 ≠
      Except.ok ⟨["sid=1"]⟩ := by
  refine ⟨rfl, ?_⟩
  show (Except.error HandleError.save : Except HandleError Response) ≠
    Except.ok ⟨["sid=1"]⟩
  intro h
  exact Except.noConfusion h

/-- C2 (amended): an I/O error during the post-receive `save` is surfaced
to the caller of the interceptor as the result of `handle`; by then the
transport has completed and the jar already holds the cookies stored from
the received response — the HTTP exchange is not undone — but the caller
receives the error instead of the response, which is dropped. -/
theorem save_error_surfaced_exchange_kept
    (parse : String → Url → List Cookie → Option (List Cookie))
    (now : Nat) (transport : Request → Option Response)
    (jar : List Cookie) (f : List Char) (req : Request) (res : Response)
    (htr : transport (set_cookies now jar req) = some res) :
    handle parse true now transport ⟨jar, some f⟩ req =
      (⟨processSetCookies parse req.url res.setCookieValues jar, some f⟩,
        Except.error HandleError.save) := by
  unfold handle
  rw [htr]
  rfl

/-- Witness for `save_error_surfaced_exchange_kept`: a concrete exchange
whose transport succeeds and whose save fails. -/
theorem save_error_surfaced_exchange_kept_witness :
    (fun _ => some (⟨["sid=1"]⟩ : Response))
        (set_cookies 0 [] ⟨⟨"h", "/", false⟩, []⟩) =
      some (⟨["sid=1"]⟩ : Response) ∧
    handle modelParse true 0 (fun _ => some ⟨["sid=1"]⟩)
        ⟨[], some []⟩ ⟨⟨"h", "/", false⟩, []⟩ =
      (⟨processSetCookies modelParse
          (⟨⟨"h", "/", false⟩, []⟩ : Request).url
          (⟨["sid=1"]⟩ : Response).setCookieValues [], some []⟩,
        Except.error HandleError.save) :=
  ⟨rfl,
    save_error_surfaced_exchange_kept modelParse 0
      (fun _ => some ⟨["sid=1"]⟩) [] [] ⟨⟨"h", "/", false⟩, []⟩
      ⟨["sid=1"]⟩ rfl⟩

/-- C3 counterexample: a successful save of a jar with no persistent
cookies leaves one NUL byte in the file — the leftover of the `vec![0]`
write-buffer initialization — while the newline-delimited serialization
of such a jar is empty, so the file contents are not exactly the
serialization. -/
theorem save_empty_jar_stray_byte :
    save false 0 ⟨[], some ("stale".data)⟩ =
      (⟨[], some [Char.ofNat 0]⟩, none) ∧
    save_json 0 [] = [] ∧
    ([Char.ofNat 0] : List Char) ≠ ([] : List Char) := by
  decide

/-- C3 (amended): after a successful save the prior file contents are
fully discarded: the file holds exactly the newline-delimited
serialization of the jar's non-session, non-expired cookies whenever that
serialization is non-empty, and a single NUL byte (the leftover of the
write buffer's `vec![0]` initialization) when it is empty; a cookie
without an expiry is never serialized, while one whose expiry lies in the
future (as with `Max-Age=100`) is. -/
theorem save_full_rewrite_contract :
    (∀ (now : Nat) (jar : List Cookie) (prior : List Char),
      save false now ⟨jar, some prior⟩ =
        (⟨jar, some (fileAfterSave prior now jar)⟩, none)) ∧
    (∀ (now : Nat) (jar : List Cookie) (prior : List Char),
      save_json now jar ≠ [] →
      fileAfterSave prior now jar = save_json now jar) ∧
    (∀ (now : Nat) (jar : List Cookie) (prior : List Char),
      save_json now jar = [] →
      fileAfterSave prior now jar = [Char.ofNat 0]) ∧
    (∀ (now : Nat) (jar : List Cookie) (c : Cookie),
      c ∈ persistentAt now jar ↔
        c ∈ jar ∧ ∃ t, c.expires = some t ∧ now < t) := by
  refine ⟨fun now jar prior => rfl, ?_, ?_, mem_persistentAt⟩
  · intro now jar prior h
    rw [fileAfterSave_eq]
    exact saveBuffer_of_ne_nil now jar h
  · intro now jar prior h
    rw [fileAfterSave_eq]
    exact saveBuffer_of_nil now jar h

/-- Witness for `save_full_rewrite_contract`: a jar with one persistent
cookie has a non-empty serialization and the save replaces the prior
contents with exactly it. -/
theorem save_full_rewrite_contract_witness :
    save_json 0 [⟨"h", "/", "a", "1", some 5, false, false⟩] ≠ [] ∧
    fileAfterSave ("old".data) 0
        [⟨"h", "/", "a", "1", some 5, false, false⟩] =
      save_json 0 [⟨"h", "/", "a", "1", some 5, false, false⟩] :=
  ⟨by decide,
    save_full_rewrite_contract.2.1 0
      [⟨"h", "/", "a", "1", some 5, false, false⟩] ("old".data)
      (by decide)⟩

/-- C7: saving a jar and constructing a fresh middleware from the saved
file reproduces exactly the persistent (non-session, non-expired) cookies
of the jar — including the corner case of an empty persistent set, where
the NUL-byte file fails to decode and yields the (equal) empty jar. -/
theorem save_load_roundtrip (now : Nat) (jar : List Cookie)
    (h : jar.all cookieOk = true) :
    from_file (saveBuffer now jar) =
      Except.ok ⟨persistentAt now jar, some (saveBuffer now jar)⟩ := by
  have h' : ∀ c ∈ jar, cookieOk c = true := by
    simpa [List.all_eq_true] using h
  by_cases hp : persistentAt now jar = []
  · unfold from_file load_from_file
    rw [saveBuffer_of_nil now jar ((save_json_eq_nil_iff now jar).mpr hp)]
    rw [show load_json [Char.ofNat 0] = none from by decide]
    rw [hp]
    rfl
  · have hne : save_json now jar ≠ [] :=
      fun hh => hp ((save_json_eq_nil_iff now jar).mp hh)
    unfold from_file load_from_file
    rw [saveBuffer_of_ne_nil now jar hne, load_json_save_json now jar h']
    rfl

/-- Witness for `save_load_roundtrip`: one persistent cookie survives the
save-then-load round trip. -/
theorem save_load_roundtrip_witness :
    ([⟨"h", "/", "a", "1", some 5, false, false⟩] : List Cookie).all
        cookieOk = true ∧
    from_file (saveBuffer 0 [⟨"h", "/", "a", "1", some 5, false, false⟩]) =
      Except.ok
        ⟨persistentAt 0 [⟨"h", "/", "a", "1", some 5, false, false⟩],
          some (saveBuffer 0
            [⟨"h", "/", "a", "1", some 5, false, false⟩])⟩ :=
  ⟨by decide,
    save_load_roundtrip 0 [⟨"h", "/", "a", "1", some 5, false, false⟩]
      (by decide)⟩
